import Mathlib

/-!
Verification of the TAS-optimizer editor of `src/modules/tas_editor/editor.rs`.

The HLTAS script data model (from the `hltas` crate as used by the source) is
embedded shallowly: `NonZeroU32` frame counts become `Nat` (positivity and the
`u32` upper bound appear as explicit hypotheses where the source relies on
them), `f32` values become `ℚ` (or `ℝ` for the one claim about `exp`), strings
stay `String`, and an `HLTAS` is identified with its list of lines (the source
only ever manipulates `hltas.lines`).  Randomness is modelled by an explicit
oracle record holding the values produced by each `rng` draw.
-/

set_option maxHeartbeats 1000000

/-- `hltas::types::StrafeType`. -/
inductive StrafeType
  | maxAccel
  | maxAngle
  | maxDeccel
  | constSpeed
deriving DecidableEq, Repr

/-- `hltas::types::StrafeDir` (float payloads as `ℚ`). -/
inductive StrafeDir
  | left
  | right
  | best
  | yaw (yaw : ℚ)
  | point (x y : ℚ)
  | line (yaw : ℚ)
  | leftRight (count : Nat)
  | rightLeft (count : Nat)
deriving DecidableEq, Repr

/-- `hltas::types::StrafeSettings`. -/
structure StrafeSettings where
  type_ : StrafeType
  dir : StrafeDir
deriving DecidableEq, Repr

/-- `hltas::types::AutoMovement`. -/
inductive AutoMovement
  | setYaw (yaw : ℚ)
  | strafe (settings : StrafeSettings)
deriving DecidableEq, Repr

/-- `hltas::types::Times`. -/
inductive Times
  | unlimitedWithinFrameBulk
  | limited (times : Nat)
deriving DecidableEq, Repr

/-- `hltas::types::LeaveGroundActionSpeed`. -/
inductive LeaveGroundActionSpeed
  | any
  | optimal
  | optimalWithFullMaxspeed
deriving DecidableEq, Repr

/-- `hltas::types::LeaveGroundActionType`. -/
inductive LeaveGroundActionType
  | jump
  | duckTap (zero_ms : Bool)
deriving DecidableEq, Repr

/-- `hltas::types::LeaveGroundAction`. -/
structure LeaveGroundAction where
  speed : LeaveGroundActionSpeed
  times : Times
  type_ : LeaveGroundActionType
deriving DecidableEq, Repr

/-- `hltas::types::JumpBug`. -/
structure JumpBug where
  times : Times
deriving DecidableEq, Repr

/-- `hltas::types::DuckBeforeCollision`. -/
structure DuckBeforeCollision where
  including_ducked : Bool
  times : Times
deriving DecidableEq, Repr

/-- `hltas::types::DuckBeforeGround`. -/
structure DuckBeforeGround where
  times : Times
deriving DecidableEq, Repr

/-- `hltas::types::DuckWhenJump`. -/
structure DuckWhenJump where
  times : Times
deriving DecidableEq, Repr

/-- `hltas::types::AutoActions`. -/
structure AutoActions where
  movement : Option AutoMovement
  leave_ground_action : Option LeaveGroundAction
  jump_bug : Option JumpBug
  duck_before_collision : Option DuckBeforeCollision
  duck_before_ground : Option DuckBeforeGround
  duck_when_jump : Option DuckWhenJump
deriving DecidableEq, Repr

/-- `hltas::types::MovementKeys`. -/
structure MovementKeys where
  forward : Bool
  left : Bool
  right : Bool
  back : Bool
  up : Bool
  down : Bool
deriving DecidableEq, Repr

/-- `hltas::types::ActionKeys`. -/
structure ActionKeys where
  jump : Bool
  duck : Bool
  use_ : Bool
  attack_1 : Bool
  attack_2 : Bool
  reload : Bool
deriving DecidableEq, Repr

/-- `hltas::types::FrameBulk` ("segment" of the spec). `frame_count` is the
`NonZeroU32` repeat count as a `Nat`. -/
structure FrameBulk where
  auto_actions : AutoActions
  movement_keys : MovementKeys
  action_keys : ActionKeys
  frame_time : String
  pitch : Option ℚ
  frame_count : Nat
  console_command : Option String
deriving DecidableEq, Repr

/-- The passthrough (non-segment) `hltas::types::Line` variants; their payloads
are irrelevant to the editor, which only clones them, so structured payloads
are flattened to plain data. -/
inductive OtherLine
  | save (name : String)
  | sharedSeed (seed : Nat)
  | buttons (desc : String)
  | lgagstMinSpeed (speed : ℚ)
  | reset (non_shared_seed : ℤ)
  | comment (text : String)
  | vectorialStrafing (enabled : Bool)
  | vectorialStrafingConstraints (constraints : String)
  | change (desc : String)
  | targetYawOverride (yaws : List ℚ)
deriving DecidableEq, Repr

/-- `hltas::types::Line`: a frame bulk or a passthrough line. -/
inductive Line
  | frameBulk (fb : FrameBulk)
  | other (o : OtherLine)
deriving DecidableEq, Repr

/-- `FrameBulk::with_frame_time`: one repeat, everything else empty. -/
def FrameBulk.with_frame_time (ft : String) : FrameBulk where
  auto_actions := ⟨none, none, none, none, none, none⟩
  movement_keys := ⟨false, false, false, false, false, false⟩
  action_keys := ⟨false, false, false, false, false, false⟩
  frame_time := ft
  pitch := none
  frame_count := 1
  console_command := none

/-- `u32::MAX`, the upper bound enforced on `NonZeroU32` frame counts. -/
def u32Max : Nat := 4294967295

/-- The frame bulk of a line, if it is one (the
`if let Line::FrameBulk(frame_bulk) = line` filter used all over the source). -/
def Line.toBulk : Line → Option FrameBulk
  | .frameBulk fb => some fb
  | _ => none

/-- Repeat counts of all frame bulks of a script, in order. -/
def countsOf (lines : List Line) : List Nat :=
  lines.filterMap fun l => (l.toBulk).map FrameBulk.frame_count

/-- Total number of frames of a script: the sum of all bulk repeat counts. -/
def totalFrames (lines : List Line) : Nat :=
  (countsOf lines).sum

/-- The `NonZeroU32`/`u32` validity invariant on every frame count. -/
def validCounts (lines : List Line) : Prop :=
  ∀ c ∈ countsOf lines, 1 ≤ c ∧ c ≤ u32Max

instance (lines : List Line) : Decidable (validCounts lines) :=
  List.decidableBAll _ _

/-- `HLTASExt::line_and_repeat_at_frame` (editor.rs:81): enumerate the lines,
keep the frame bulks, flatten each into its `(line, repeat)` pairs and take the
`frame`-th one. -/
def line_and_repeat_at_frame (lines : List Line) (frame : Nat) : Option (Nat × Nat) :=
  ((lines.enum.filterMap fun p =>
      match p.2 with
      | .frameBulk fb => some (p.1, fb)
      | _ => none).flatMap fun p =>
    (List.range p.2.frame_count).map fun r => (p.1, r))[frame]?

/-- `HLTASExt::split_at_frame` (editor.rs:96).  In-place mutation is modelled
by returning the new line list together with the index of the frame bulk that
starts at `frame` (the source returns a `&mut` to that bulk).  The source's
`unreachable!()` branch (the located line not being a frame bulk) is modelled
as `none`. -/
def split_at_frame (lines : List Line) (frame : Nat) : Option (List Line × Nat) :=
  match line_and_repeat_at_frame lines frame with
  | none => none
  | some (l, r) =>
    match lines[l]? with
    | some (.frameBulk fb) =>
      if r = 0 then
        -- The frame bulk already starts here.
        some (lines, l)
      else
        let new_frame_bulk := { fb with frame_count := fb.frame_count - r }
        some (((lines.set l (.frameBulk { fb with frame_count := r })).insertIdx (l + 1)
          (.frameBulk new_frame_bulk), l + 1))
    | _ => none

/-- `HLTASExt::split_single_at_frame` (editor.rs:125): split at `frame + 1`
(its result, possibly out of range, is discarded), then split at `frame`. -/
def split_single_at_frame (lines : List Line) (frame : Nat) : Option (List Line × Nat) :=
  let lines1 :=
    match split_at_frame lines (frame + 1) with
    | some (ls, _) => ls
    | none => lines
  split_at_frame lines1 frame

/-! ### Example scripts for concrete witnesses -/

/-- A plain one-repeat frame bulk. -/
def exBulk : FrameBulk := FrameBulk.with_frame_time "0.001"

/-- A two-repeat frame bulk carrying a console command. -/
def exCmdBulk : FrameBulk := { exBulk with frame_count := 2, console_command := some "c" }

/-- A script consisting of one command-carrying segment. -/
def exCmdScript : List Line := [.frameBulk exCmdBulk]

/-- The result of splitting `exCmdScript` at frame 1. -/
def exCmdSplit : List Line :=
  [.frameBulk { exCmdBulk with frame_count := 1 },
   .frameBulk { exCmdBulk with frame_count := 1 }]

/-- A script with a three-repeat segment followed by a comment line. -/
def exScript3 : List Line :=
  [.frameBulk { exBulk with frame_count := 3 }, .other (.comment "x")]

/-- The result of splitting `exScript3` at frame 1. -/
def exScript3Split : List Line :=
  [.frameBulk { exBulk with frame_count := 1 },
   .frameBulk { exBulk with frame_count := 2 }, .other (.comment "x")]

/-- The console command of the frame bulk at line index `i`. -/
def consoleCommandAtBulk (lines : List Line) (i : Nat) : Option (Option String) :=
  (lines[i]?.bind Line.toBulk).map FrameBulk.console_command

/-! ### Editor state, remote receive and dispatch -/

/-- `AttemptResult` (objective.rs): how a candidate compares to the current
best. -/
inductive AttemptResult
  | better (value : String)
  | worse (difference : ℚ)
  | invalid
deriving DecidableEq, Repr

/-- The `Editor` (editor.rs:32).  The simulated `Frame` type is abstracted to
a parameter `φ` (its `Parameters`/`State` content never matters to the
editor's control flow); `prefix` and `hltas` are identified with their line
lists, `f32` search parameters with `ℚ`. -/
structure EditorS (φ : Type) where
  prefixLines : List Line
  hltas : List Line
  frames : List φ
  last_mutation_frames : Option (List φ)
  generation : Nat
  temperature : ℚ
  cooling_rate : ℚ
  max_iterations : Nat
  current_iterations : Nat
deriving DecidableEq

/-- The source's `self.hltas.lines[0]` console-command erasure (a non-bulk
head is `unreachable!()` in the source and left unchanged here). -/
def clearFirstConsoleCommand : List Line → List Line
  | .frameBulk fb :: rest => .frameBulk { fb with console_command := none } :: rest
  | ls => ls

/-- The receive callback of `maybe_simulate_all_in_remote_client`
(editor.rs:320-327): a result with a mismatched generation tag returns
immediately; otherwise the received frames are spliced onto the kept
initial frame. -/
def receive_initial {φ : Type} [Inhabited φ] (e : EditorS φ)
    (msg : List Line × Nat × List φ) : EditorS φ :=
  let (_, generation, fr) := msg
  if generation ≠ e.generation then e
  else { e with frames := e.frames.headI :: fr }

/-- The receive callback of `optimize_with_remote_clients`
(editor.rs:375-398): a mismatched generation tag returns immediately;
otherwise the result is recorded as the last mutation, evaluated against the
current frames, and applied only on `Better` (dropping the prefix lines and
the trailing marker bulk of the echoed script, and erasing the
start-recording command of its first line). -/
def receive_optimize {φ : Type} [Inhabited φ]
    (objective : List φ → List φ → AttemptResult) (e : EditorS φ)
    (msg : List Line × Nat × List φ) : EditorS φ :=
  let (hltasMsg, generation, fr) := msg
  if generation ≠ e.generation then e
  else
    let fr := e.frames.headI :: fr
    let e1 := { e with last_mutation_frames := some fr }
    match objective fr e1.frames with
    | .better _ =>
      let newLines := (hltasMsg.take (hltasMsg.length - 1)).drop e1.prefixLines.length
      { e1 with hltas := clearFirstConsoleCommand newLines, frames := fr }
    | _ => e1

/-- The source's `match &mut lines[i] { FrameBulk => set command, _ =>
unreachable!() }` pattern (a non-bulk line is left unchanged here). -/
def setConsoleCommandAt (lines : List Line) (i : Nat) (cmd : Option String) : List Line :=
  match lines[i]? with
  | some (.frameBulk fb) => lines.set i (.frameBulk { fb with console_command := cmd })
  | _ => lines

/-- `Editor::prepare_hltas_for_sending` (editor.rs:288): the outbound payload
is `prefix ++ body` with the first body line's console command replaced by
the start-recording marker and a trailing one-frame bulk carrying the done
marker appended.  The source mutates `self.prefix` and truncates it back, so
the editor itself is left unchanged; the model returns just the payload. -/
def prepare_hltas_for_sending {φ : Type} (e : EditorS φ) : List Line :=
  let len := e.prefixLines.length
  let combined := setConsoleCommandAt (e.prefixLines ++ e.hltas) len
    (some "_bxt_tas_optim_simulation_start_recording_frames")
  combined ++ [.frameBulk { FrameBulk.with_frame_time "0.001" with
    console_command := some "_bxt_tas_optim_simulation_done;toggleconsole" }]

/-! ### Mutation operators

Randomness is modelled by an oracle record holding, for one call of
`mutate_single_frame_bulk` (editor.rs:609), the value produced by each `rng`
draw, in the source's order.  `f32` draws become `ℚ`, integer `gen_range`
draws become `ℤ` (the range contract of the boundary draw is
`boundaryDeltaOk` below). -/

/-- One oracle per `mutate_single_frame_bulk` call. -/
structure Rng where
  /-- `rng.gen_range(0..count)`: which frame bulk is mutated. -/
  pick_index : Nat
  /-- `rng.gen::<f32>()` selecting the strafe type. -/
  strafe_p : ℚ
  /-- `rng.gen::<f32>()` deciding between the large and the small yaw nudge. -/
  yaw_big_p : ℚ
  /-- `rng.gen_range(-180f32..180f32)`. -/
  yaw_delta_big : ℚ
  /-- `rng.gen_range(-1f32..1f32)`. -/
  yaw_delta_small : ℚ
  /-- `rng.gen_range(-10..10)` nudging a left-right count. -/
  lr_count_delta : ℤ
  /-- `rng.gen::<f32>()` deciding a strafe-direction inversion. -/
  dir_invert_p : ℚ
  /-- `rng.gen::<f32>()` of `mutate_action_keys`. -/
  use_p : ℚ
  /-- `rng.gen::<f32>()` toggling duck-before-ground. -/
  duck_p : ℚ
  /-- `rng.gen::<f32>()` deciding whether to reassign the leave-ground action. -/
  lga_p : ℚ
  /-- `rng.gen::<f32>()` choosing among absent / duck-tap / jump. -/
  lga_kind_p : ℚ
  /-- `rng.gen::<bool>()` choosing the leave-ground speed. -/
  lga_speed_any : Bool
  /-- `rng.gen_range(min_frame_count_difference..max_frame_count_difference)`. -/
  boundary_delta : ℤ
deriving DecidableEq, Repr

/-- `mutate_action_keys` (editor.rs:787): 5% chance to flip the use key. -/
def mutate_action_keys (rng : Rng) (fb : FrameBulk) : FrameBulk :=
  if rng.use_p < 5 / 100 then
    { fb with action_keys := { fb.action_keys with use_ := !fb.action_keys.use_ } }
  else fb

/-- `mutate_auto_actions` (editor.rs:793): 5% chance to toggle
duck-before-ground, 10% chance to reassign the leave-ground action. -/
def mutate_auto_actions (rng : Rng) (fb : FrameBulk) : FrameBulk :=
  let fb :=
    if rng.duck_p < 5 / 100 then
      { fb with auto_actions := { fb.auto_actions with duck_before_ground :=
        match fb.auto_actions.duck_before_ground with
        | some _ => none
        | none => some ⟨.unlimitedWithinFrameBulk⟩ } }
    else fb
  if rng.lga_p < 1 / 10 then
    { fb with auto_actions := { fb.auto_actions with leave_ground_action :=
      (if rng.lga_kind_p < 1 / 3 then none
       else if rng.lga_kind_p < 2 / 3 then
        some ⟨if rng.lga_speed_any then .any else .optimal, .unlimitedWithinFrameBulk,
          .duckTap (fb.frame_time == "0.001")⟩
       else
        some ⟨if rng.lga_speed_any then .any else .optimal, .unlimitedWithinFrameBulk,
          .jump⟩) } }
  else fb

/-- The in-place strafe mutation of `mutate_single_frame_bulk`
(editor.rs:631-685): only applies when the bulk already strafes; the type is
resampled and the direction nudged/inverted. -/
def mutateStrafe (rng : Rng) (fb : FrameBulk) : FrameBulk :=
  match fb.auto_actions.movement with
  | some (.strafe s) =>
    let t : StrafeType :=
      if rng.strafe_p < 1 / 100 then .maxDeccel
      else if rng.strafe_p < 1 / 10 then .maxAngle
      else .maxAccel
    let dir : StrafeDir :=
      match s.dir with
      | .yaw y =>
        .yaw (y + (if rng.yaw_big_p < 5 / 100 then rng.yaw_delta_big else rng.yaw_delta_small))
      | .leftRight c =>
        let c' := (min (max ((c : ℤ) + rng.lr_count_delta) 1) (u32Max : ℤ)).toNat
        if rng.dir_invert_p < 5 / 100 then .rightLeft c' else .leftRight c'
      | .rightLeft c =>
        let c' := (min (max ((c : ℤ) + rng.lr_count_delta) 1) (u32Max : ℤ)).toNat
        if rng.dir_invert_p < 5 / 100 then .leftRight c' else .rightLeft c'
      | .left => if rng.dir_invert_p < 5 / 100 then .right else .left
      | .right => if rng.dir_invert_p < 5 / 100 then .left else .right
      | d => d
    { fb with auto_actions := { fb.auto_actions with movement := some (.strafe ⟨t, dir⟩) } }
  | _ => fb

/-- The field mutations `mutate_single_frame_bulk` applies to the picked
bulk, in source order: strafe, action keys, auto actions. -/
def mutateBulkFields (rng : Rng) (fb : FrameBulk) : FrameBulk :=
  mutate_auto_actions rng (mutate_action_keys rng (mutateStrafe rng fb))

/-- Number of frame-bulk lines (the `filter(FrameBulk).count()` of
editor.rs:610). -/
def numBulks (lines : List Line) : Nat :=
  (lines.filterMap Line.toBulk).length

/-- The `index`-th frame bulk (`filter_map(FrameBulk).nth(index)`). -/
def nthBulk (lines : List Line) (i : Nat) : Option FrameBulk :=
  (lines.filterMap Line.toBulk)[i]?

/-- In-place modification of the `i`-th frame bulk (counting bulks only),
modelling `iter_mut().filter_map(FrameBulk).nth(i)` followed by mutation. -/
def modifyBulkAt : List Line → Nat → (FrameBulk → FrameBulk) → List Line
  | [], _, _ => []
  | .frameBulk fb :: rest, 0, g => .frameBulk (g fb) :: rest
  | .frameBulk fb :: rest, n + 1, g => .frameBulk fb :: modifyBulkAt rest n g
  | l :: rest, n, g => l :: modifyBulkAt rest n g

/-- The state of the script after the picked bulk's fields are mutated,
before the boundary shift. -/
def afterFieldMutation (lines : List Line) (rng : Rng) : List Line :=
  modifyBulkAt lines rng.pick_index (mutateBulkFields rng)

/-- `max_frame_count_difference` (editor.rs:710): cannot push the next bulk
below one frame. -/
def max_frame_count_difference (nfb : FrameBulk) : ℤ :=
  min ((nfb.frame_count : ℤ) - 1) 10

/-- `min_frame_count_difference` (editor.rs:715): cannot push the next bulk
above `u32::MAX` frames. -/
def min_frame_count_difference (nfb : FrameBulk) : ℤ :=
  max ((nfb.frame_count : ℤ) - (u32Max : ℤ)) (-10)

/-- The `gen_range` contract of the boundary draw: whenever the boundary
shift executes, the drawn `boundary_delta` lies in
`min_frame_count_difference..max_frame_count_difference`. -/
def boundaryDeltaOk (lines : List Line) (rng : Rng) : Bool :=
  let ls := afterFieldMutation lines rng
  if rng.pick_index + 1 < numBulks lines then
    match nthBulk ls rng.pick_index, nthBulk ls (rng.pick_index + 1) with
    | some fb, some nfb =>
      if fb.frame_time = nfb.frame_time then
        decide (min_frame_count_difference nfb ≤ rng.boundary_delta) &&
          decide (rng.boundary_delta < max_frame_count_difference nfb)
      else true
    | _, _ => true
  else true

/-- `mutate_single_frame_bulk` (editor.rs:609): mutate the fields of a random
bulk; when a next bulk exists and shares `frame_time`, shift the boundary by
the drawn delta, clamping the mutated bulk to `[1, u32::MAX]` and
transferring the difference to the next bulk.  Returns the new lines and the
stale frame (sum of the counts of the bulks before the mutated one). -/
def mutate_single_frame_bulk (lines : List Line) (rng : Rng) : List Line × Nat :=
  let count := numBulks lines
  let index := rng.pick_index
  let lines := afterFieldMutation lines rng
  let lines :=
    if index + 1 < count then
      match nthBulk lines index, nthBulk lines (index + 1) with
      | some fb, some nfb =>
        -- Can only move the boundary between frame bulks if the frame times match.
        if fb.frame_time = nfb.frame_time then
          let newCount : ℤ := min (max ((fb.frame_count : ℤ) + rng.boundary_delta) 1) (u32Max : ℤ)
          let difference : ℤ := (fb.frame_count : ℤ) - newCount
          let lines := modifyBulkAt lines index fun fb => { fb with frame_count := newCount.toNat }
          modifyBulkAt lines (index + 1) fun nfb =>
            { nfb with frame_count := ((nfb.frame_count : ℤ) + difference).toNat }
        else lines
      | _, _ => lines
    else lines
  (lines, (((lines.filterMap Line.toBulk).take index).map FrameBulk.frame_count).sum)

/-- The dispatch producer closure of `optimize_with_remote_clients`
(editor.rs:408-427), in the whole-segment mutation mode: clone the current
body, apply the mutation attempts, build the payload, restore the body, and
stamp the payload with the current generation. -/
def produce_candidate {φ : Type} (e : EditorS φ) (rngs : List Rng) :
    EditorS φ × (List Line × Nat) :=
  let temp := e.hltas
  let e1 := { e with hltas := rngs.foldl (fun ls r => (mutate_single_frame_bulk ls r).1) e.hltas }
  let payload := prepare_hltas_for_sending e1
  let e2 := { e1 with hltas := temp }
  (e2, (payload, e2.generation))

/-- The dispatch producer closure of `maybe_simulate_all_in_remote_client`
(editor.rs:336-338): the unmodified script is prepared for sending and
stamped with the current generation (`prepare_hltas_for_sending` restores
`prefix`, so the editor itself is unchanged). -/
def produce_initial {φ : Type} (e : EditorS φ) : EditorS φ × (List Line × Nat) :=
  (e, (prepare_hltas_for_sending e, e.generation))

/-- Modelled from the spec: `try_dispatch(producer)` /
`remote::maybe_simulate_in_one_client` "hands a freshly produced
`(script, generation)` to one idle worker if available, non-blockingly"
(§6; the remote transport module `remote.rs` is not among the sources).
`idleAvailable` tells whether an idle worker exists; the dispatched
payload, if any, is returned alongside the state. -/
def maybe_simulate_in_one_client {σ : Type} (idleAvailable : Bool)
    (producer : σ → σ × (List Line × Nat)) (s : σ) : σ × Option (List Line × Nat) :=
  if idleAvailable then
    let (s1, p) := producer s
    (s1, some p)
  else (s, none)

/-- Modelled from the spec: `dispatch_to_all_available(producer)` "invokes
`producer` once per currently idle worker" (§6; the remote transport module
`remote.rs` is not among the sources).  `idle` is the number of currently
idle workers; the produced `(script, generation)` payloads are collected in
dispatch order. -/
def simulate_in_available_clients {σ : Type} (idle : Nat)
    (producer : σ → σ × (List Line × Nat)) (s : σ) : σ × List (List Line × Nat) :=
  match idle with
  | 0 => (s, [])
  | n + 1 =>
    let (s1, p) := producer s
    let (s2, ps) := simulate_in_available_clients n producer s1
    (s2, p :: ps)

/-! ### The merge pass of `Editor::minimize` -/

/-- The source's merge test (editor.rs:526-528): temporarily give the
accumulated bulk the next bulk's `frame_count` and compare wholesale, i.e.
the two bulks agree in every field except `frame_count`.  Non-bulk lines
never merge. -/
def bulkMatches (fb : FrameBulk) : Line → Bool
  | .frameBulk nfb => decide ({ fb with frame_count := nfb.frame_count } = nfb)
  | _ => false

/-- The "join split frame bulks" loop of `Editor::minimize`
(editor.rs:507-552), with the partially accumulated bulk (the source's
`frame_bulk` local of the inner loop) made explicit: `none` corresponds to
the outer loop head, `some fb` to the inner loop with accumulated bulk
`fb`.  The merge sum `frame_count.get() + next_frame_bulk.frame_count.get()`
(editor.rs:529-531) is `u32` addition, so it is taken modulo
`u32::MAX + 1` here (past `u32::MAX` the source wraps in release mode and
the subsequent `NonZeroU32::new(..).unwrap()` can panic; the equality with
the spec-level merge below therefore carries a no-overflow hypothesis). -/
def joinAux : Option FrameBulk → List Line → List Line
  | none, [] => []
  | some fb, [] => [.frameBulk fb]
  | none, .frameBulk fb :: rest => joinAux (some fb) rest
  | none, l :: rest => l :: joinAux none rest
  | some fb, .frameBulk nfb :: rest =>
    if { fb with frame_count := nfb.frame_count } = nfb then
      joinAux (some { fb with frame_count :=
        (fb.frame_count + nfb.frame_count) % (u32Max + 1) }) rest
    else
      .frameBulk fb :: joinAux (some nfb) rest
  | some fb, l :: rest => .frameBulk fb :: l :: joinAux none rest

/-- The merge pass: `self.hltas.lines = new_lines` with the loop above. -/
def joinLines (lines : List Line) : List Line := joinAux none lines

/-- The merge pass as the spec words it: each maximal run of adjacent
segments identical in every field except `frame_count` becomes one segment
with the summed count; all other lines are untouched.  (A second,
spec-level formulation, compared against `joinLines` below.) -/
def mergeRuns : List Line → List Line
  | [] => []
  | .frameBulk fb :: rest =>
    let run := rest.takeWhile (bulkMatches fb)
    .frameBulk { fb with frame_count := fb.frame_count + totalFrames run } ::
      mergeRuns (rest.drop run.length)
  | .other o :: rest => .other o :: mergeRuns rest
termination_by ls => ls.length
decreasing_by
  · simp only [List.length_cons, List.length_drop]
    omega
  · simp only [List.length_cons]
    omega

/-- The spec scenario: two adjacent segments identical except for counts 5
and 3. -/
def exMergeInput : List Line :=
  [.frameBulk { exBulk with frame_count := 5 }, .frameBulk { exBulk with frame_count := 3 }]

/-- The single merged segment with count 8. -/
def exMergeOutput : List Line := [.frameBulk { exBulk with frame_count := 8 }]

/-! ### The removal pass of `Editor::minimize` -/

/-- The external simulation capability used by `Editor::minimize`
(editor.rs:430): `S` is the physical `State`, `P` the externally observable
player state (`State::player()`: position/orientation/velocity), `Pr` the
simulation `Parameters`.  `simStep` is one
`state.simulate(tracer, parameters, frame_bulk).0` step; `updateFrameTime`
is the per-bulk `parameters.frame_time` refresh (editor.rs:442, the `f32`
parse-and-truncate left abstract). -/
structure SimEnv (S P Pr : Type) where
  player : S → P
  simStep : S → Pr → FrameBulk → S
  updateFrameTime : Pr → String → Pr

/-- The `simulate` closure of `Editor::minimize` (editor.rs:445-451):
advance the carried-in state through `frame_count` repeats of the bulk. -/
def simulateBulk {S P Pr : Type} (env : SimEnv S P Pr) (params : Pr) (state : S)
    (fb : FrameBulk) : S :=
  (fun s => env.simStep s params fb)^[fb.frame_count] state

/-- The per-frame-bulk body of the removal pass of `Editor::minimize`
(editor.rs:436-489): update the preferred leave-ground type and the frame
time, simulate the bulk from the carried-in state, then attempt the three
tentative changes in source order — use key set to false; leave-ground
action replaced by the canonical `Optimal`/`UnlimitedWithinFrameBulk` form
with the preferred type; duck-before-ground removed — each resimulated from
the carried-in state and kept only when the resulting player state equals
the current baseline, else reverted.  Returns the final bulk, the
carried-out state and the updated preferred type. -/
def minimizeBulk {S P Pr : Type} [DecidableEq P] (env : SimEnv S P Pr) (params : Pr)
    (pref : LeaveGroundActionType) (state : S) (fb : FrameBulk) :
    FrameBulk × S × LeaveGroundActionType :=
  let pref :=
    match fb.auto_actions.leave_ground_action with
    | some action => action.type_
    | none => pref
  let params := env.updateFrameTime params fb.frame_time
  let state_original := simulateBulk env params state fb
  let (fb, state_original) :=
    if fb.action_keys.use_ then
      let fb2 := { fb with action_keys := { fb.action_keys with use_ := false } }
      let state_new := simulateBulk env params state fb2
      if env.player state_original = env.player state_new then (fb2, state_new)
      else (fb, state_original)
    else (fb, state_original)
  let (fb, state_original) :=
    match fb.auto_actions.leave_ground_action with
    | some _ =>
      let fb2 := { fb with auto_actions := { fb.auto_actions with leave_ground_action :=
        (some ⟨.optimal, .unlimitedWithinFrameBulk, pref⟩) } }
      let state_new := simulateBulk env params state fb2
      if env.player state_original = env.player state_new then (fb2, state_new)
      else (fb, state_original)
    | none => (fb, state_original)
  let (fb, state_original) :=
    match fb.auto_actions.duck_before_ground with
    | some _ =>
      let fb2 := { fb with auto_actions := { fb.auto_actions with duck_before_ground := none } }
      let state_new := simulateBulk env params state fb2
      if env.player state_original = env.player state_new then (fb2, state_new)
      else (fb, state_original)
    | none => (fb, state_original)
  (fb, state_original, pref)

/-- Spec formulation of one tentative change ("keep the removal only if the
resulting externally observable player state is unchanged, else restore
it"): resimulate the changed bulk from the carried-in state and keep the
change exactly when the resulting player state equals that of the incoming
bulk's simulation. -/
def keepIfUnchanged {S P Pr : Type} [DecidableEq P] (env : SimEnv S P Pr) (params : Pr)
    (state : S) (fb fb2 : FrameBulk) : FrameBulk :=
  if env.player (simulateBulk env params state fb) =
      env.player (simulateBulk env params state fb2) then fb2 else fb

/-- Spec formulation of the use-key step: tentatively release the use
key. -/
def minimizeStepUse {S P Pr : Type} [DecidableEq P] (env : SimEnv S P Pr) (params : Pr)
    (state : S) (fb : FrameBulk) : FrameBulk :=
  if fb.action_keys.use_ then
    keepIfUnchanged env params state fb
      { fb with action_keys := { fb.action_keys with use_ := false } }
  else fb

/-- Spec formulation of the leave-ground step: tentatively replace the
action by its canonical form (speed `Optimal`, unlimited times, the
segment's own action type). -/
def minimizeStepLga {S P Pr : Type} [DecidableEq P] (env : SimEnv S P Pr) (params : Pr)
    (state : S) (fb : FrameBulk) : FrameBulk :=
  match fb.auto_actions.leave_ground_action with
  | some action =>
    keepIfUnchanged env params state fb
      { fb with auto_actions := { fb.auto_actions with leave_ground_action :=
        (some ⟨.optimal, .unlimitedWithinFrameBulk, action.type_⟩) } }
  | none => fb

/-- Spec formulation of the duck-before-ground step: tentatively remove the
action. -/
def minimizeStepDuck {S P Pr : Type} [DecidableEq P] (env : SimEnv S P Pr) (params : Pr)
    (state : S) (fb : FrameBulk) : FrameBulk :=
  match fb.auto_actions.duck_before_ground with
  | some _ =>
    keepIfUnchanged env params state fb
      { fb with auto_actions := { fb.auto_actions with duck_before_ground := none } }
  | none => fb

/-- A degenerate simulation capability: one player state, one parameter
value. -/
def exSimEnv : SimEnv Unit Unit Unit where
  player := fun _ => ()
  simStep := fun s _ _ => s
  updateFrameTime := fun p _ => p

/-- A segment carrying a leave-ground action with speed `Any`. -/
def exLgaBulk : FrameBulk :=
  { exBulk with auto_actions := { exBulk.auto_actions with
    leave_ground_action := some ⟨.any, .unlimitedWithinFrameBulk, .jump⟩ } }

/-! ### The Metropolis acceptance assertion -/

/-- The assertion of the `Worse` branch of `Editor::optimize`
(editor.rs:268-270): the acceptance factor `exp(difference / temperature)`
is at most 1 (`f32` arithmetic modelled over `ℝ`). -/
def worseBranchAssertionHolds (difference temperature : ℝ) : Prop :=
  Real.exp (difference / temperature) ≤ 1


/-- A trivial objective used by concrete witnesses. -/
def exObjective : List Nat → List Nat → AttemptResult := fun _ _ => .invalid

/-- A concrete editor at generation 4. -/
def exEditor4 : EditorS Nat where
  prefixLines := []
  hltas := exCmdScript
  frames := [0]
  last_mutation_frames := none
  generation := 4
  temperature := 1
  cooling_rate := 1
  max_iterations := 10
  current_iterations := 0

/-- A concrete editor at generation 7. -/
def exEditor7 : EditorS Nat := { exEditor4 with generation := 7 }


/-- A concrete oracle: mutate bulk 0, draw boundary delta 1, leave all
probability draws above their thresholds. -/
def exRng : Rng where
  pick_index := 0
  strafe_p := 1
  yaw_big_p := 1
  yaw_delta_big := 0
  yaw_delta_small := 0
  lr_count_delta := 0
  dir_invert_p := 1
  use_p := 1
  duck_p := 1
  lga_p := 1
  lga_kind_p := 1
  lga_speed_any := false
  boundary_delta := 1

/-! ### Frame-slot machinery

`line_and_repeat_at_frame` walks the flattened list of `(line, repeat)` slots.
`slotsRec` is the same list built by structural recursion, which the proofs
below use. -/

/-- The flattened `(line index, repeat)` slot list, built recursively. -/
def slotsRec : List Line → List (Nat × Nat)
  | [] => []
  | .frameBulk fb :: rest =>
    ((List.range fb.frame_count).map fun r => ((0 : Nat), r)) ++
      (slotsRec rest).map fun p => (p.1 + 1, p.2)
  | _ :: rest => (slotsRec rest).map fun p => (p.1 + 1, p.2)

lemma slotsRec_nil : slotsRec [] = [] := rfl

lemma slotsRec_cons_bulk (fb : FrameBulk) (rest : List Line) :
    slotsRec (.frameBulk fb :: rest) =
      ((List.range fb.frame_count).map fun r => ((0 : Nat), r)) ++
        (slotsRec rest).map fun p => (p.1 + 1, p.2) := rfl

lemma slotsRec_cons_other (o : OtherLine) (rest : List Line) :
    slotsRec (.other o :: rest) = (slotsRec rest).map fun p => (p.1 + 1, p.2) := rfl

lemma map_shift_shift (X : List (Nat × Nat)) (a b : Nat) :
    (X.map fun p => (p.1 + a, p.2)).map (fun p => (p.1 + b, p.2)) =
      X.map fun p => (p.1 + (a + b), p.2) := by
  rw [List.map_map]
  apply List.map_congr_left
  intro p _
  simp [Function.comp]
  omega

lemma totalFrames_nil : totalFrames [] = 0 := rfl

lemma totalFrames_cons_bulk (fb : FrameBulk) (rest : List Line) :
    totalFrames (.frameBulk fb :: rest) = fb.frame_count + totalFrames rest := by
  simp [totalFrames, countsOf, Line.toBulk]

lemma totalFrames_cons_other (o : OtherLine) (rest : List Line) :
    totalFrames (.other o :: rest) = totalFrames rest := by
  simp [totalFrames, countsOf, Line.toBulk]

lemma totalFrames_append (A B : List Line) :
    totalFrames (A ++ B) = totalFrames A + totalFrames B := by
  simp [totalFrames, countsOf]

lemma slotsRec_length (lines : List Line) :
    (slotsRec lines).length = totalFrames lines := by
  induction lines with
  | nil => rfl
  | cons x rest ih =>
    cases x with
    | frameBulk fb => simp [slotsRec, ih, totalFrames_cons_bulk]
    | other o => simp [slotsRec, ih, totalFrames_cons_other]

lemma slotsFrom_eq (lines : List Line) (n : Nat) :
    ((lines.enumFrom n |>.filterMap fun p =>
        match p.2 with
        | .frameBulk fb => some (p.1, fb)
        | _ => none).flatMap fun p =>
      (List.range p.2.frame_count).map fun r => (p.1, r))
      = (slotsRec lines).map fun p => (p.1 + n, p.2) := by
  induction lines generalizing n with
  | nil => simp [slotsRec]
  | cons x rest ih =>
    cases x with
    | frameBulk fb =>
      simp only [List.enumFrom_cons, List.filterMap_cons, List.flatMap_cons, slotsRec, ih]
      rw [List.map_append, List.map_map, List.map_map]
      congr 1
      · apply List.map_congr_left
        intro r _
        simp
      · apply List.map_congr_left
        intro p _
        simp [Function.comp]
        omega
    | other o =>
      simp only [List.enumFrom_cons, List.filterMap_cons, slotsRec, ih]
      rw [List.map_map]
      apply List.map_congr_left
      intro p _
      simp [Function.comp]
      omega

lemma line_and_repeat_eq_slotsRec (lines : List Line) (f : Nat) :
    line_and_repeat_at_frame lines f = (slotsRec lines)[f]? := by
  unfold line_and_repeat_at_frame
  rw [show lines.enum = lines.enumFrom 0 from rfl, slotsFrom_eq]
  simp

lemma locate_isSome (lines : List Line) (f : Nat) :
    (line_and_repeat_at_frame lines f).isSome ↔ f < totalFrames lines := by
  rw [line_and_repeat_eq_slotsRec, Option.isSome_iff_ne_none, ne_eq,
    List.getElem?_eq_none_iff, not_le, slotsRec_length]

lemma slotsRec_char (lines : List Line) :
    ∀ (f l r : Nat), (slotsRec lines)[f]? = some (l, r) →
      ∃ fb, lines[l]? = some (.frameBulk fb) ∧ r < fb.frame_count ∧
        f = totalFrames (lines.take l) + r := by
  induction lines with
  | nil => intro f l r h; simp [slotsRec] at h
  | cons x rest ih =>
    intro f l r h
    cases x with
    | frameBulk fb =>
      rw [slotsRec_cons_bulk] at h
      by_cases hf : f < fb.frame_count
      · rw [List.getElem?_append_left (by simpa using hf)] at h
        rw [List.getElem?_map, List.getElem?_range hf] at h
        simp only [Option.map_some', Option.some.injEq, Prod.mk.injEq] at h
        obtain ⟨hl, hr⟩ := h
        exact ⟨fb, by simp [← hl], by omega, by simp [← hl, totalFrames_nil]; omega⟩
      · rw [List.getElem?_append_right (by simpa using Nat.le_of_not_lt hf)] at h
        simp only [List.length_map, List.length_range, List.getElem?_map] at h
        obtain ⟨⟨l', r'⟩, hget, heq⟩ := Option.map_eq_some'.mp h
        simp only [Prod.mk.injEq] at heq
        obtain ⟨fb', hline, hr', hf'⟩ := ih _ _ _ hget
        refine ⟨fb', ?_, by omega, ?_⟩
        · rw [← heq.1, ← heq.2] at *
          simpa using hline
        · rw [← heq.1, ← heq.2]
          simp only [List.take_succ_cons, totalFrames_cons_bulk]
          omega
    | other o =>
      rw [slotsRec_cons_other, List.getElem?_map] at h
      obtain ⟨⟨l', r'⟩, hget, heq⟩ := Option.map_eq_some'.mp h
      simp only [Prod.mk.injEq] at heq
      obtain ⟨fb', hline, hr', hf'⟩ := ih _ _ _ hget
      refine ⟨fb', ?_, by omega, ?_⟩
      · rw [← heq.1, ← heq.2] at *
        simpa using hline
      · rw [← heq.1, ← heq.2]
        simp only [List.take_succ_cons, totalFrames_cons_other]
        omega

lemma locate_char {lines : List Line} {f l r : Nat}
    (h : line_and_repeat_at_frame lines f = some (l, r)) :
    ∃ fb, lines[l]? = some (.frameBulk fb) ∧ r < fb.frame_count ∧
      f = totalFrames (lines.take l) + r := by
  rw [line_and_repeat_eq_slotsRec] at h
  exact slotsRec_char lines f l r h

lemma slotsRec_append (A B : List Line) :
    slotsRec (A ++ B) = slotsRec A ++ (slotsRec B).map fun p => (p.1 + A.length, p.2) := by
  induction A with
  | nil =>
    rw [List.nil_append, slotsRec_nil, List.nil_append, List.length_nil]
    rw [show (fun p : Nat × Nat => (p.1 + 0, p.2)) = id from by funext p; simp]
    rw [List.map_id]
  | cons x rest ih =>
    cases x with
    | frameBulk fb =>
      rw [List.cons_append, slotsRec_cons_bulk, slotsRec_cons_bulk, ih, List.map_append,
        map_shift_shift, List.append_assoc, List.length_cons]
    | other o =>
      rw [List.cons_append, slotsRec_cons_other, slotsRec_cons_other, ih, List.map_append,
        map_shift_shift, List.length_cons]

/-- Locating `totalFrames A + r` in `A ++ bulk :: B` lands at repeat `r` of the
bulk, provided `r` is within its count. -/
lemma locate_append_bulk (A B : List Line) (fb : FrameBulk) (r : Nat)
    (h : r < fb.frame_count) :
    line_and_repeat_at_frame (A ++ .frameBulk fb :: B) (totalFrames A + r) =
      some (A.length, r) := by
  rw [line_and_repeat_eq_slotsRec, slotsRec_append]
  rw [List.getElem?_append_right (by rw [slotsRec_length]; omega)]
  rw [slotsRec_length]
  have hidx : totalFrames A + r - totalFrames A = r := by omega
  rw [hidx, List.getElem?_map, slotsRec_cons_bulk]
  rw [List.getElem?_append_left (by simpa using h)]
  rw [List.getElem?_map, List.getElem?_range h]
  simp

/-! ### Splitting -/

lemma decomp_of_getElem? {lines : List Line} {l : Nat} {x : Line}
    (h : lines[l]? = some x) :
    lines = lines.take l ++ x :: lines.drop (l + 1) := by
  obtain ⟨hlt, hx⟩ := List.getElem?_eq_some_iff.mp h
  conv_lhs => rw [← List.take_append_drop l lines]
  congr 1
  rw [← List.getElem_cons_drop lines l hlt, hx]

lemma set_insertIdx_decomp (A B : List Line) (x y z : Line) :
    ((A ++ x :: B).set A.length y).insertIdx (A.length + 1) z = A ++ y :: z :: B := by
  induction A with
  | nil =>
    rw [List.nil_append, List.length_nil, List.set_cons_zero, List.insertIdx_succ_cons,
      List.insertIdx_zero, List.nil_append]
  | cons a rest ih =>
    rw [List.cons_append, List.length_cons, List.set_cons_succ, List.insertIdx_succ_cons,
      ih, List.cons_append]

lemma take_length_eq {lines : List Line} {l : Nat} {x : Line}
    (h : lines[l]? = some x) : (lines.take l).length = l := by
  have hlt := (List.getElem?_eq_some_iff.mp h).1
  rw [List.length_take]
  omega

lemma split_at_frame_eq {lines : List Line} {f l r : Nat} {fb : FrameBulk}
    (hloc : line_and_repeat_at_frame lines f = some (l, r))
    (hfb : lines[l]? = some (.frameBulk fb)) :
    split_at_frame lines f =
      if r = 0 then some (lines, l)
      else some (lines.take l ++ .frameBulk { fb with frame_count := r } ::
        .frameBulk { fb with frame_count := fb.frame_count - r } ::
          lines.drop (l + 1), l + 1) := by
  have hlen := take_length_eq hfb
  have hd := decomp_of_getElem? hfb
  have key : ∀ (y z : Line), (lines.set l y).insertIdx (l + 1) z =
      lines.take l ++ y :: z :: lines.drop (l + 1) := by
    intro y z
    have h2 := set_insertIdx_decomp (lines.take l) (lines.drop (l + 1)) (.frameBulk fb) y z
    rw [hlen] at h2
    rw [← hd] at h2
    exact h2
  by_cases hr : r = 0
  · simp [split_at_frame, hloc, hfb, hr]
  · rw [if_neg hr]
    simp only [split_at_frame, hloc, hfb, if_neg hr]
    rw [key]

lemma split_at_boundary {lines : List Line} {f l : Nat}
    (h : line_and_repeat_at_frame lines f = some (l, 0)) :
    split_at_frame lines f = some (lines, l) := by
  obtain ⟨fb, hfb, _, _⟩ := locate_char h
  have := split_at_frame_eq h hfb
  simpa using this

/-- The central splitting lemma: an in-range split succeeds, preserves the
total frame count, and afterwards the frame is located at repeat 0 of the
returned bulk index. -/
lemma split_spec {lines : List Line} {f : Nat} (h : f < totalFrames lines) :
    ∃ lines' idx, split_at_frame lines f = some (lines', idx) ∧
      totalFrames lines' = totalFrames lines ∧
      line_and_repeat_at_frame lines' f = some (idx, 0) := by
  obtain ⟨p, hp⟩ := Option.isSome_iff_exists.mp ((locate_isSome lines f).mpr h)
  obtain ⟨l, r⟩ := p
  obtain ⟨fb, hfb, hr, hf⟩ := locate_char hp
  have hsplit := split_at_frame_eq hp hfb
  have hlen := take_length_eq hfb
  have hd := decomp_of_getElem? hfb
  by_cases hr0 : r = 0
  · subst hr0
    rw [if_pos rfl] at hsplit
    exact ⟨lines, l, hsplit, rfl, hp⟩
  · rw [if_neg hr0] at hsplit
    refine ⟨_, l + 1, hsplit, ?_, ?_⟩
    · conv_rhs => rw [hd]
      rw [totalFrames_append, totalFrames_append, totalFrames_cons_bulk,
        totalFrames_cons_bulk, totalFrames_cons_bulk]
      dsimp only
      omega
    · have h0 : (0 : Nat) < fb.frame_count - r := by omega
      have hloc2 := locate_append_bulk
        (lines.take l ++ [.frameBulk { fb with frame_count := r }]) (lines.drop (l + 1))
        { fb with frame_count := fb.frame_count - r } 0 h0
      rw [totalFrames_append, totalFrames_cons_bulk, totalFrames_nil,
        List.length_append, hlen] at hloc2
      simp only [List.append_assoc, List.cons_append, List.nil_append,
        List.length_cons, List.length_nil] at hloc2
      rw [hf]
      simpa using hloc2

/-! ### C1, C2, C9, C10 -/

/-- C1: for every valid script and in-range frame index `f`, `split_at(f)`
succeeds, the total frame count is unchanged, and `locate(f)` afterwards
yields repeat index 0 (at the bulk index the split returned). -/
theorem C1_split_then_locate (lines : List Line) (f : Nat)
    (hvalid : validCounts lines) (h : f < totalFrames lines) :
    ∃ lines' idx, split_at_frame lines f = some (lines', idx) ∧
      totalFrames lines' = totalFrames lines ∧
      line_and_repeat_at_frame lines' f = some (idx, 0) :=
  split_spec h

theorem C1_witness :
    validCounts exScript3 ∧ 1 < totalFrames exScript3 ∧
      (∃ lines' idx, split_at_frame exScript3 1 = some (lines', idx) ∧
        totalFrames lines' = totalFrames exScript3 ∧
        line_and_repeat_at_frame lines' 1 = some (idx, 0)) :=
  ⟨by decide, by decide, C1_split_then_locate exScript3 1 (by decide) (by decide)⟩

/-- C10: `split_at` is idempotent: if `split_at(f)` returns the state
`lines₁` (with bulk index `i₁`), then `split_at(f)` on `lines₁` returns
`lines₁` unchanged, with the same bulk index. -/
theorem C10_split_idempotent (lines : List Line) (f : Nat) (lines₁ : List Line) (i₁ : Nat)
    (h : split_at_frame lines f = some (lines₁, i₁)) :
    split_at_frame lines₁ f = some (lines₁, i₁) := by
  have hrange : f < totalFrames lines := by
    rcases hloc : line_and_repeat_at_frame lines f with _ | p
    · simp [split_at_frame, hloc] at h
    · exact (locate_isSome lines f).mp (by rw [hloc]; rfl)
  obtain ⟨lines', idx, hs, -, hloc'⟩ := split_spec hrange
  rw [hs] at h
  simp only [Option.some.injEq, Prod.mk.injEq] at h
  obtain ⟨rfl, rfl⟩ := h
  exact split_at_boundary hloc'

theorem C10_witness : split_at_frame exScript3Split 1 = some (exScript3Split, 1) :=
  C10_split_idempotent exScript3 1 exScript3Split 1 (by decide)

/-- C9: if `f` is in range and not the last frame, `split_single_at(f)`
yields a frame bulk that starts exactly at `f` (the frames of all lines
before it sum to `f`) and has `frame_count = 1`. -/
theorem C9_split_single (lines : List Line) (f : Nat)
    (h : f + 1 < totalFrames lines) :
    ∃ lines₂ i fb, split_single_at_frame lines f = some (lines₂, i) ∧
      lines₂[i]? = some (.frameBulk fb) ∧ fb.frame_count = 1 ∧
      totalFrames (lines₂.take i) = f := by
  obtain ⟨lines1, idx1, hs1, htot1, hloc1⟩ := split_spec h
  have hsingle : split_single_at_frame lines f = split_at_frame lines1 f := by
    simp [split_single_at_frame, hs1]
  have hf1 : f < totalFrames lines1 := by omega
  obtain ⟨p, hp⟩ := Option.isSome_iff_exists.mp ((locate_isSome lines1 f).mpr hf1)
  obtain ⟨l', r'⟩ := p
  obtain ⟨fb', hfb', hr', hf'⟩ := locate_char hp
  have hlen := take_length_eq hfb'
  have hd := decomp_of_getElem? hfb'
  -- the bulk containing `f` ends at `f + 1`, because a bulk boundary sits there
  have hcount : fb'.frame_count = r' + 1 := by
    by_contra hne
    have hlt : r' + 1 < fb'.frame_count := by omega
    have := locate_append_bulk (lines1.take l') (lines1.drop (l' + 1)) fb' (r' + 1) hlt
    rw [← hd] at this
    have heq : totalFrames (lines1.take l') + (r' + 1) = f + 1 := by omega
    rw [heq, hloc1] at this
    simp at this
  have hsplit := split_at_frame_eq hp hfb'
  by_cases hr0 : r' = 0
  · subst hr0
    rw [if_pos rfl] at hsplit
    refine ⟨lines1, l', fb', by rw [hsingle, hsplit], hfb', by omega, by omega⟩
  · rw [if_neg hr0] at hsplit
    refine ⟨_, l' + 1, { fb' with frame_count := fb'.frame_count - r' },
      by rw [hsingle, hsplit], ?_, by dsimp only; omega, ?_⟩
    · rw [List.getElem?_append_right (by omega)]
      rw [hlen]
      simp
    · have htake := @List.take_append Line (lines1.take l')
        (Line.frameBulk { fb' with frame_count := r' } ::
          Line.frameBulk { fb' with frame_count := fb'.frame_count - r' } ::
            lines1.drop (l' + 1)) 1
      rw [hlen] at htake
      rw [htake]
      rw [List.take_succ_cons, List.take_zero, totalFrames_append, totalFrames_cons_bulk,
        totalFrames_nil]
      dsimp only
      omega

theorem C9_witness :
    1 + 1 < totalFrames exScript3 ∧
      (∃ lines₂ i fb, split_single_at_frame exScript3 1 = some (lines₂, i) ∧
        lines₂[i]? = some (.frameBulk fb) ∧ fb.frame_count = 1 ∧
        totalFrames (lines₂.take i) = 1) :=
  ⟨by decide, C9_split_single exScript3 1 (by decide)⟩

/-- C2 as stated is false on the code: `split_at_frame` clones the whole
frame bulk, console command included, so the newly created right part also
carries the command.  Splitting a 2-frame segment carrying command `"c"` at
frame 1 returns the right part (index 1) still carrying `some "c"`. -/
theorem C2_counterexample :
    split_at_frame exCmdScript 1 = some (exCmdSplit, 1) ∧
      consoleCommandAtBulk exCmdSplit 1 = some (some "c") ∧
      ¬ consoleCommandAtBulk exCmdSplit 1 = some none := by
  refine ⟨by decide, by decide, by decide⟩

/-- C2 amended: when the split point is strictly inside a segment, the
segment is duplicated; the left part keeps `repeat_index` frames, the right
part the remainder, and BOTH parts keep the segment's console command (the
right part is a clone of the original, only its `frame_count` differs). -/
theorem C2_split_console_command (lines : List Line) (f l r : Nat) (fb : FrameBulk)
    (hloc : line_and_repeat_at_frame lines f = some (l, r))
    (hfb : lines[l]? = some (.frameBulk fb)) (hr : r ≠ 0) :
    ∃ lines' left right, split_at_frame lines f = some (lines', l + 1) ∧
      lines'[l]? = some (.frameBulk left) ∧ lines'[l + 1]? = some (.frameBulk right) ∧
      left.frame_count = r ∧ right.frame_count = fb.frame_count - r ∧
      left.console_command = fb.console_command ∧
      right.console_command = fb.console_command := by
  have hsplit := split_at_frame_eq hloc hfb
  rw [if_neg hr] at hsplit
  have hlen := take_length_eq hfb
  refine ⟨_, { fb with frame_count := r }, { fb with frame_count := fb.frame_count - r },
    hsplit, ?_, ?_, rfl, rfl, rfl, rfl⟩
  · rw [List.getElem?_append_right (by omega), hlen]
    simp
  · rw [List.getElem?_append_right (by omega), hlen]
    simp

theorem C2_witness :
    ∃ lines' left right, split_at_frame exCmdScript 1 = some (lines', 0 + 1) ∧
      lines'[0]? = some (.frameBulk left) ∧ lines'[0 + 1]? = some (.frameBulk right) ∧
      left.frame_count = 1 ∧ right.frame_count = exCmdBulk.frame_count - 1 ∧
      left.console_command = exCmdBulk.console_command ∧
      right.console_command = exCmdBulk.console_command :=
  C2_split_console_command exCmdScript 1 0 1 exCmdBulk (by decide) (by decide) (by decide)

/-! ### C3, C4: generation handling of the distributed coordinator -/

lemma produce_candidate_state {φ : Type} (e : EditorS φ) (rngs : List Rng) :
    (produce_candidate e rngs).1 = e := rfl

lemma simulate_succ {σ : Type} (n : Nat) (producer : σ → σ × (List Line × Nat)) (s : σ) :
    simulate_in_available_clients (n + 1) producer s =
      ((simulate_in_available_clients n producer (producer s).1).1,
        (producer s).2 :: (simulate_in_available_clients n producer (producer s).1).2) := rfl

lemma simulate_const {σ : Type} (idle : Nat) (producer : σ → σ × (List Line × Nat))
    (s : σ) (h : (producer s).1 = s) :
    simulate_in_available_clients idle producer s = (s, List.replicate idle (producer s).2) := by
  induction idle with
  | zero => rfl
  | succ n ih =>
    rw [simulate_succ, h, ih]
    simp [List.replicate_succ]

/-- C3: a remote simulation result whose generation tag differs from the
Editor's current generation is discarded by both receive paths
(`maybe_simulate_all_in_remote_client` and `optimize_with_remote_clients`):
the Editor state, in particular `frames`, is exactly unchanged. -/
theorem C3_stale_result_discarded {φ : Type} [Inhabited φ]
    (objective : List φ → List φ → AttemptResult) (e : EditorS φ)
    (msg : List Line × Nat × List φ) (h : msg.2.1 ≠ e.generation) :
    receive_optimize objective e msg = e ∧ receive_initial e msg = e := by
  obtain ⟨hl, g, fr⟩ := msg
  simp only at h
  simp [receive_optimize, receive_initial, h]

theorem C3_witness :
    receive_optimize exObjective exEditor4 (exCmdScript, 3, [5]) = exEditor4 ∧
      receive_initial exEditor4 (exCmdScript, 3, [5]) = exEditor4 :=
  C3_stale_result_discarded exObjective exEditor4 (exCmdScript, 3, [5]) (by decide)

/-- C4 as stated is false on the code: the dispatch path never changes
`generation` (no operation in editor.rs increments it), so two successive
dispatches of one session carry the same tag.  Concretely, one
`optimize_with_remote_clients` step with two idle workers dispatches two
candidates both tagged with the current generation 7, and the second tag is
not strictly greater than the first. -/
theorem C4_counterexample :
    ((simulate_in_available_clients 2 (fun x => produce_candidate x []) exEditor7).2.map
        Prod.snd) = [7, 7] ∧ ¬ (7 : Nat) < 7 := by
  refine ⟨by decide, by decide⟩

/-- C4 amended: both dispatch operations — the initial-simulation dispatch
of `maybe_simulate_all_in_remote_client` and the candidate dispatch of
`optimize_with_remote_clients` — stamp the outbound `(script, generation)`
pair with the Editor's *current* generation and leave the Editor (its
`generation` included) unchanged; hence any initial dispatch carries the
current tag, and the tags of `k` candidate dispatches in one step form
`replicate k generation` — never a strictly increasing sequence. -/
theorem C4_dispatch_stamps_current_generation {φ : Type} (e : EditorS φ) (rngs : List Rng) :
    (produce_initial e).1 = e ∧
      (produce_initial e).2.2 = e.generation ∧
      (∀ idleAvailable : Bool,
        (maybe_simulate_in_one_client idleAvailable (fun x => produce_initial x) e).1 = e ∧
          (maybe_simulate_in_one_client idleAvailable (fun x => produce_initial x) e).2.map
              Prod.snd = (if idleAvailable then some e.generation else none)) ∧
      (produce_candidate e rngs).1 = e ∧
      (produce_candidate e rngs).2.2 = e.generation ∧
      ∀ idle : Nat,
        ((simulate_in_available_clients idle (fun x => produce_candidate x rngs) e).2.map
          Prod.snd) = List.replicate idle e.generation := by
  refine ⟨rfl, rfl, fun idleAvailable => ?_, rfl, rfl, fun idle => ?_⟩
  · cases idleAvailable
    · exact ⟨rfl, rfl⟩
    · exact ⟨rfl, rfl⟩
  · rw [simulate_const idle _ e (produce_candidate_state e rngs), List.map_replicate]
    rfl

/-! ### C8: the Metropolis acceptance assertion -/

/-- C8: in the `Worse` branch, a non-positive difference and a positive
temperature make the acceptance factor `exp(difference / temperature)` at
most 1, so the `assert!(acceptance <= 1)` cannot fail; without the
non-positivity precondition the assertion fails (at `difference = 1`,
`temperature = 1` the factor is `e > 1`). -/
theorem C8_worse_assertion (difference temperature : ℝ)
    (hd : difference ≤ 0) (ht : 0 < temperature) :
    worseBranchAssertionHolds difference temperature ∧
      ¬ worseBranchAssertionHolds 1 1 := by
  constructor
  · rw [worseBranchAssertionHolds, Real.exp_le_one_iff]
    rw [div_nonpos_iff]
    exact Or.inr ⟨hd, ht.le⟩
  · rw [worseBranchAssertionHolds, not_le]
    have h1 : (1 : ℝ) / 1 = 1 := by norm_num
    rw [h1]
    exact Real.one_lt_exp_iff.mpr one_pos

theorem C8_witness :
    worseBranchAssertionHolds 0 1 ∧ ¬ worseBranchAssertionHolds 1 1 :=
  C8_worse_assertion 0 1 le_rfl one_pos

/-! ### C7: the merge pass replaces maximal runs -/

lemma bulkMatches_set_count (fb : FrameBulk) (n : Nat) (l : Line) :
    bulkMatches { fb with frame_count := n } l = bulkMatches fb l := by
  cases l <;> rfl

lemma mergeRuns_nil : mergeRuns [] = [] := by
  rw [mergeRuns]

lemma mergeRuns_cons_bulk (fb : FrameBulk) (rest : List Line) :
    mergeRuns (.frameBulk fb :: rest) =
      .frameBulk { fb with frame_count :=
        fb.frame_count + totalFrames (rest.takeWhile (bulkMatches fb)) } ::
        mergeRuns (rest.drop (rest.takeWhile (bulkMatches fb)).length) := by
  rw [mergeRuns]

lemma mergeRuns_cons_other (o : OtherLine) (rest : List Line) :
    mergeRuns (.other o :: rest) = .other o :: mergeRuns rest := by
  rw [mergeRuns]

lemma joinAux_spec (ls : List Line) :
    (totalFrames ls ≤ u32Max → joinAux none ls = mergeRuns ls) ∧
      ∀ fb, fb.frame_count + totalFrames ls ≤ u32Max →
        joinAux (some fb) ls =
          .frameBulk { fb with frame_count :=
            fb.frame_count + totalFrames (ls.takeWhile (bulkMatches fb)) } ::
            mergeRuns (ls.drop (ls.takeWhile (bulkMatches fb)).length) := by
  induction ls with
  | nil =>
    refine ⟨fun _ => by rw [mergeRuns_nil]; rfl, fun fb _ => ?_⟩
    show [Line.frameBulk fb] = _
    simp only [List.takeWhile_nil, totalFrames_nil, Nat.add_zero, List.drop_nil,
      List.length_nil, mergeRuns_nil]
  | cons x rest ih =>
    obtain ⟨ih1, ih2⟩ := ih
    constructor
    · intro hbound
      cases x with
      | frameBulk fb =>
        rw [totalFrames_cons_bulk] at hbound
        rw [show joinAux none (Line.frameBulk fb :: rest) = joinAux (some fb) rest from rfl,
          ih2 fb hbound, mergeRuns_cons_bulk]
      | other o =>
        rw [totalFrames_cons_other] at hbound
        rw [show joinAux none (Line.other o :: rest) = Line.other o :: joinAux none rest
          from rfl, ih1 hbound, mergeRuns_cons_other]
    · intro fb hbound
      cases x with
      | frameBulk nfb =>
        rw [totalFrames_cons_bulk] at hbound
        have hmod : (fb.frame_count + nfb.frame_count) % (u32Max + 1) =
            fb.frame_count + nfb.frame_count :=
          Nat.mod_eq_of_lt (by omega)
        have hpred : bulkMatches { fb with frame_count :=
            (fb.frame_count + nfb.frame_count) % (u32Max + 1) } = bulkMatches fb :=
          funext (bulkMatches_set_count fb _)
        by_cases hm : { fb with frame_count := nfb.frame_count } = nfb
        · rw [show joinAux (some fb) (Line.frameBulk nfb :: rest) =
            joinAux (some { fb with frame_count :=
              (fb.frame_count + nfb.frame_count) % (u32Max + 1) }) rest
            from by simp [joinAux, hm]]
          rw [ih2 _ (by dsimp only; omega), hpred]
          have htw : (Line.frameBulk nfb :: rest).takeWhile (bulkMatches fb) =
              Line.frameBulk nfb :: rest.takeWhile (bulkMatches fb) := by
            rw [List.takeWhile_cons, if_pos (by simp [bulkMatches, hm])]
          rw [htw, totalFrames_cons_bulk, List.length_cons, List.drop_succ_cons]
          dsimp only
          rw [hmod, Nat.add_assoc]
        · rw [show joinAux (some fb) (Line.frameBulk nfb :: rest) =
            Line.frameBulk fb :: joinAux (some nfb) rest from by simp [joinAux, hm]]
          rw [ih2 nfb (by omega)]
          have htw : (Line.frameBulk nfb :: rest).takeWhile (bulkMatches fb) = [] := by
            rw [List.takeWhile_cons, if_neg (by simp [bulkMatches, hm])]
          rw [htw, totalFrames_nil, Nat.add_zero, List.length_nil, List.drop_zero,
            mergeRuns_cons_bulk]
      | other o =>
        rw [totalFrames_cons_other] at hbound
        rw [show joinAux (some fb) (Line.other o :: rest) =
          Line.frameBulk fb :: Line.other o :: joinAux none rest from rfl, ih1 (by omega)]
        have htw : (Line.other o :: rest).takeWhile (bulkMatches fb) = [] := by
          rw [List.takeWhile_cons, if_neg (by simp [bulkMatches])]
        rw [htw, totalFrames_nil, Nat.add_zero, List.length_nil, List.drop_zero,
          mergeRuns_cons_other]

/-- C7: for scripts in the source's `u32` domain (total frame count at most
`u32::MAX`, so the merge's `u32` sums cannot overflow), the merge pass of
`Editor::minimize` is exactly the spec-level "maximal runs" transformation:
every maximal run of adjacent segments identical in every field except
`frame_count` becomes one segment whose count is the sum of the run's
counts, and all other lines are kept untouched; in particular adjacent
identical segments with counts 5 and 3 become one segment with count 8. -/
theorem C7_merge_maximal_runs (lines : List Line) (h : totalFrames lines ≤ u32Max) :
    joinLines lines = mergeRuns lines ∧ joinLines exMergeInput = exMergeOutput :=
  ⟨(joinAux_spec lines).1 h, by decide⟩

theorem C7_witness :
    totalFrames exMergeInput ≤ u32Max ∧
      (joinLines exMergeInput = mergeRuns exMergeInput ∧
        joinLines exMergeInput = exMergeOutput) :=
  ⟨by decide, C7_merge_maximal_runs exMergeInput (by decide)⟩

/-! ### C5: the whole-segment mutation -/

lemma countsOf_eq_map (lines : List Line) :
    countsOf lines = (lines.filterMap Line.toBulk).map FrameBulk.frame_count := by
  rw [countsOf, List.map_filterMap]

lemma mutate_action_keys_count (rng : Rng) (fb : FrameBulk) :
    (mutate_action_keys rng fb).frame_count = fb.frame_count := by
  rw [mutate_action_keys]
  split_ifs <;> rfl

lemma mutate_action_keys_time (rng : Rng) (fb : FrameBulk) :
    (mutate_action_keys rng fb).frame_time = fb.frame_time := by
  rw [mutate_action_keys]
  split_ifs <;> rfl

lemma mutate_auto_actions_count (rng : Rng) (fb : FrameBulk) :
    (mutate_auto_actions rng fb).frame_count = fb.frame_count := by
  rw [mutate_auto_actions]
  split_ifs <;> rfl

lemma mutate_auto_actions_time (rng : Rng) (fb : FrameBulk) :
    (mutate_auto_actions rng fb).frame_time = fb.frame_time := by
  rw [mutate_auto_actions]
  split_ifs <;> rfl

lemma mutateStrafe_count (rng : Rng) (fb : FrameBulk) :
    (mutateStrafe rng fb).frame_count = fb.frame_count := by
  rw [mutateStrafe]
  cases hm : fb.auto_actions.movement with
  | none => rfl
  | some am =>
    cases am with
    | setYaw y => rfl
    | strafe s => rfl

lemma mutateStrafe_time (rng : Rng) (fb : FrameBulk) :
    (mutateStrafe rng fb).frame_time = fb.frame_time := by
  rw [mutateStrafe]
  cases hm : fb.auto_actions.movement with
  | none => rfl
  | some am =>
    cases am with
    | setYaw y => rfl
    | strafe s => rfl

lemma mutateBulkFields_count (rng : Rng) (fb : FrameBulk) :
    (mutateBulkFields rng fb).frame_count = fb.frame_count := by
  rw [mutateBulkFields, mutate_auto_actions_count, mutate_action_keys_count, mutateStrafe_count]

lemma mutateBulkFields_time (rng : Rng) (fb : FrameBulk) :
    (mutateBulkFields rng fb).frame_time = fb.frame_time := by
  rw [mutateBulkFields, mutate_auto_actions_time, mutate_action_keys_time, mutateStrafe_time]

lemma nthBulk_cons_bulk_zero (fb : FrameBulk) (rest : List Line) :
    nthBulk (.frameBulk fb :: rest) 0 = some fb := by
  simp [nthBulk, Line.toBulk]

lemma nthBulk_cons_bulk_succ (fb : FrameBulk) (rest : List Line) (i : Nat) :
    nthBulk (.frameBulk fb :: rest) (i + 1) = nthBulk rest i := by
  simp [nthBulk, Line.toBulk]

lemma nthBulk_cons_other (o : OtherLine) (rest : List Line) (i : Nat) :
    nthBulk (.other o :: rest) i = nthBulk rest i := by
  simp [nthBulk, Line.toBulk]

lemma modifyBulkAt_cons_other (o : OtherLine) (rest : List Line) (n : Nat)
    (g : FrameBulk → FrameBulk) :
    modifyBulkAt (.other o :: rest) n g = .other o :: modifyBulkAt rest n g := rfl

lemma filterMap_modifyBulkAt {g : FrameBulk → FrameBulk} :
    ∀ (lines : List Line) (i : Nat) (fb : FrameBulk), nthBulk lines i = some fb →
      (modifyBulkAt lines i g).filterMap Line.toBulk =
        (lines.filterMap Line.toBulk).set i (g fb) := by
  intro lines
  induction lines with
  | nil => intro i fb h; simp [nthBulk] at h
  | cons x rest ih =>
    intro i fb h
    cases x with
    | frameBulk fb0 =>
      cases i with
      | zero =>
        rw [nthBulk_cons_bulk_zero] at h
        obtain rfl : fb0 = fb := by injection h
        simp [modifyBulkAt, Line.toBulk]
      | succ n =>
        rw [nthBulk_cons_bulk_succ] at h
        simp [modifyBulkAt, Line.toBulk, ih n fb h]
    | other o =>
      rw [nthBulk_cons_other] at h
      simp [modifyBulkAt_cons_other, Line.toBulk, ih i fb h]

lemma set_getElem?_self {α : Type} :
    ∀ (l : List α) (i : Nat) (v : α), l[i]? = some v → l.set i v = l := by
  intro l
  induction l with
  | nil => intro i v h; simp at h
  | cons a t ih =>
    intro i v h
    cases i with
    | zero =>
      rw [List.getElem?_cons_zero] at h
      obtain rfl : a = v := by injection h
      rfl
    | succ n =>
      rw [List.getElem?_cons_succ] at h
      rw [List.set_cons_succ, ih n v h]

lemma sum_set_add :
    ∀ (l : List Nat) (i : Nat) (v c : Nat), l[i]? = some c →
      (l.set i v).sum + c = l.sum + v := by
  intro l
  induction l with
  | nil => intro i v c h; simp at h
  | cons a t ih =>
    intro i v c h
    cases i with
    | zero =>
      rw [List.getElem?_cons_zero] at h
      obtain rfl : a = c := by injection h
      simp [List.sum_cons]
      omega
    | succ n =>
      rw [List.getElem?_cons_succ] at h
      rw [List.set_cons_succ]
      simp only [List.sum_cons]
      have := ih n v c h
      omega

lemma mutate_shape_no_boundary (lines : List Line) (rng : Rng)
    (h : ¬ rng.pick_index + 1 < numBulks lines) :
    (mutate_single_frame_bulk lines rng).1 = afterFieldMutation lines rng := by
  simp [mutate_single_frame_bulk, h, afterFieldMutation]

lemma mutate_shape_no_match {lines : List Line} {rng : Rng} {fb nfb : FrameBulk}
    (h : rng.pick_index + 1 < numBulks lines)
    (h1 : nthBulk (afterFieldMutation lines rng) rng.pick_index = some fb)
    (h2 : nthBulk (afterFieldMutation lines rng) (rng.pick_index + 1) = some nfb)
    (hft : ¬ fb.frame_time = nfb.frame_time) :
    (mutate_single_frame_bulk lines rng).1 = afterFieldMutation lines rng := by
  simp [mutate_single_frame_bulk, afterFieldMutation] at h1 h2 ⊢
  simp [h, h1, h2, hft]

lemma mutate_shape_boundary {lines : List Line} {rng : Rng} {fb nfb : FrameBulk}
    (h : rng.pick_index + 1 < numBulks lines)
    (h1 : nthBulk (afterFieldMutation lines rng) rng.pick_index = some fb)
    (h2 : nthBulk (afterFieldMutation lines rng) (rng.pick_index + 1) = some nfb)
    (hft : fb.frame_time = nfb.frame_time) :
    (mutate_single_frame_bulk lines rng).1 =
      modifyBulkAt (modifyBulkAt (afterFieldMutation lines rng) rng.pick_index
          fun fb2 => { fb2 with frame_count :=
            (min (max ((fb.frame_count : ℤ) + rng.boundary_delta) 1) (u32Max : ℤ)).toNat })
        (rng.pick_index + 1)
        fun nfb2 => { nfb2 with frame_count :=
          ((nfb2.frame_count : ℤ) + ((fb.frame_count : ℤ) -
            min (max ((fb.frame_count : ℤ) + rng.boundary_delta) 1) (u32Max : ℤ))).toNat } := by
  simp [mutate_single_frame_bulk, afterFieldMutation] at h1 h2 ⊢
  simp [h, h1, h2, hft]

lemma boundary_delta_bounds {lines : List Line} {rng : Rng} {fb nfb : FrameBulk}
    (h : rng.pick_index + 1 < numBulks lines)
    (h1 : nthBulk (afterFieldMutation lines rng) rng.pick_index = some fb)
    (h2 : nthBulk (afterFieldMutation lines rng) (rng.pick_index + 1) = some nfb)
    (hft : fb.frame_time = nfb.frame_time)
    (hd : boundaryDeltaOk lines rng = true) :
    min_frame_count_difference nfb ≤ rng.boundary_delta ∧
      rng.boundary_delta < max_frame_count_difference nfb := by
  rw [boundaryDeltaOk] at hd
  simp only [h, if_true, h1, h2, hft] at hd
  simpa using hd

lemma boundary_arith (c n : Nat) (d : ℤ)
    (hc1 : 1 ≤ c) (hc2 : c ≤ u32Max) (hn1 : 1 ≤ n) (hn2 : n ≤ u32Max)
    (hmin : max ((n : ℤ) - (u32Max : ℤ)) (-10) ≤ d)
    (hmax : d < min ((n : ℤ) - 1) 10) :
    1 ≤ (min (max ((c : ℤ) + d) 1) (u32Max : ℤ)).toNat ∧
      (min (max ((c : ℤ) + d) 1) (u32Max : ℤ)).toNat ≤ u32Max ∧
      1 ≤ ((n : ℤ) + ((c : ℤ) - min (max ((c : ℤ) + d) 1) (u32Max : ℤ))).toNat ∧
      ((n : ℤ) + ((c : ℤ) - min (max ((c : ℤ) + d) 1) (u32Max : ℤ))).toNat ≤ u32Max ∧
      (min (max ((c : ℤ) + d) 1) (u32Max : ℤ)).toNat +
        ((n : ℤ) + ((c : ℤ) - min (max ((c : ℤ) + d) 1) (u32Max : ℤ))).toNat = c + n := by
  simp only [u32Max] at *
  rcases le_total ((c : ℤ) + d) 1 with hlo | hlo <;>
    rcases le_total (max ((c : ℤ) + d) 1) (4294967295 : ℤ) with hhi | hhi <;>
      simp only [min_def, max_def] at * <;> split_ifs at * <;>
        refine ⟨by omega, by omega, by omega, by omega, by omega⟩

lemma countsOf_double_modify {ls : List Line} {i : Nat} {fb nfb : FrameBulk}
    (h1 : nthBulk ls i = some fb) (h2 : nthBulk ls (i + 1) = some nfb)
    (g1 g2 : FrameBulk → FrameBulk) :
    countsOf (modifyBulkAt (modifyBulkAt ls i g1) (i + 1) g2) =
      ((countsOf ls).set i (g1 fb).frame_count).set (i + 1) (g2 nfb).frame_count := by
  have h2' : nthBulk (modifyBulkAt ls i g1) (i + 1) = some nfb := by
    rw [nthBulk, filterMap_modifyBulkAt ls i fb h1, List.getElem?_set_ne (by omega)]
    exact h2
  rw [countsOf_eq_map, filterMap_modifyBulkAt _ (i + 1) nfb h2', List.map_set,
    filterMap_modifyBulkAt ls i fb h1, List.map_set, ← countsOf_eq_map]

/-- C5: the whole-segment mutation preserves the script's total frame count
and keeps every bulk's `frame_count` — in particular the mutated segment's
and its successor's — within `[1, u32::MAX]` (so none of the source's
`NonZeroU32`/`u32` conversions can fail); when the script has exactly one
segment, the boundary-shift branch is skipped and the repeat counts are
entirely unchanged. -/
theorem C5_whole_segment_mutation (lines : List Line) (rng : Rng)
    (hvalid : validCounts lines)
    (hidx : rng.pick_index < numBulks lines)
    (hdelta : boundaryDeltaOk lines rng = true) :
    totalFrames (mutate_single_frame_bulk lines rng).1 = totalFrames lines ∧
      validCounts (mutate_single_frame_bulk lines rng).1 ∧
      (numBulks lines = 1 →
        countsOf (mutate_single_frame_bulk lines rng).1 = countsOf lines) := by
  have hleni : rng.pick_index < (lines.filterMap Line.toBulk).length := hidx
  obtain ⟨fb0, hfb0⟩ : ∃ fb0, nthBulk lines rng.pick_index = some fb0 :=
    ⟨_, List.getElem?_eq_getElem hleni⟩
  have hfb0' : (lines.filterMap Line.toBulk)[rng.pick_index]? = some fb0 := hfb0
  have hB1 : (afterFieldMutation lines rng).filterMap Line.toBulk =
      (lines.filterMap Line.toBulk).set rng.pick_index (mutateBulkFields rng fb0) :=
    filterMap_modifyBulkAt lines rng.pick_index fb0 hfb0
  have hcounts1 : countsOf (afterFieldMutation lines rng) = countsOf lines := by
    rw [countsOf_eq_map, hB1, List.map_set, mutateBulkFields_count, ← countsOf_eq_map]
    apply set_getElem?_self
    rw [countsOf_eq_map, List.getElem?_map, hfb0', Option.map_some']
  have hvalid1 : validCounts (afterFieldMutation lines rng) := by
    intro c hc
    rw [hcounts1] at hc
    exact hvalid c hc
  by_cases hb : rng.pick_index + 1 < numBulks lines
  · have hfbM : nthBulk (afterFieldMutation lines rng) rng.pick_index =
        some (mutateBulkFields rng fb0) := by
      rw [nthBulk, hB1]
      simp [hleni]
    obtain ⟨nfbO, hnfbO⟩ : ∃ x, nthBulk lines (rng.pick_index + 1) = some x :=
      ⟨_, List.getElem?_eq_getElem hb⟩
    have hnfbO' : (lines.filterMap Line.toBulk)[rng.pick_index + 1]? = some nfbO := hnfbO
    have hnfb : nthBulk (afterFieldMutation lines rng) (rng.pick_index + 1) = some nfbO := by
      rw [nthBulk, hB1, List.getElem?_set_ne (by omega)]
      exact hnfbO
    by_cases hft : (mutateBulkFields rng fb0).frame_time = nfbO.frame_time
    · obtain ⟨hmin, hmax⟩ := boundary_delta_bounds hb hfbM hnfb hft hdelta
      rw [min_frame_count_difference] at hmin
      rw [max_frame_count_difference] at hmax
      have hcmem : fb0.frame_count ∈ countsOf lines := by
        rw [countsOf_eq_map]
        exact List.mem_map_of_mem _ (List.getElem?_mem hfb0)
      have hnmem : nfbO.frame_count ∈ countsOf lines := by
        rw [countsOf_eq_map]
        exact List.mem_map_of_mem _ (List.getElem?_mem hnfbO)
      obtain ⟨hc1, hc2⟩ := hvalid _ hcmem
      obtain ⟨hn1, hn2⟩ := hvalid _ hnmem
      have HA := boundary_arith fb0.frame_count nfbO.frame_count rng.boundary_delta
        hc1 hc2 hn1 hn2 hmin hmax
      have hshape := mutate_shape_boundary hb hfbM hnfb hft
      have hfinal : countsOf (mutate_single_frame_bulk lines rng).1 =
          ((countsOf lines).set rng.pick_index
            ((min (max ((fb0.frame_count : ℤ) + rng.boundary_delta) 1) (u32Max : ℤ)).toNat)).set
            (rng.pick_index + 1)
            (((nfbO.frame_count : ℤ) + ((fb0.frame_count : ℤ) -
              min (max ((fb0.frame_count : ℤ) + rng.boundary_delta) 1) (u32Max : ℤ))).toNat) := by
        rw [hshape, countsOf_double_modify hfbM hnfb, hcounts1]
        dsimp only
        rw [mutateBulkFields_count]
      have hclc : (countsOf lines)[rng.pick_index]? = some fb0.frame_count := by
        rw [countsOf_eq_map, List.getElem?_map, hfb0', Option.map_some']
      have hcln : (countsOf lines)[rng.pick_index + 1]? = some nfbO.frame_count := by
        rw [countsOf_eq_map, List.getElem?_map, hnfbO', Option.map_some']
      obtain ⟨ha1, ha2, hb1, hb2, hab⟩ := HA
      refine ⟨?_, ?_, ?_⟩
      · rw [totalFrames, totalFrames, hfinal]
        have e1 := sum_set_add (countsOf lines) rng.pick_index
          ((min (max ((fb0.frame_count : ℤ) + rng.boundary_delta) 1) (u32Max : ℤ)).toNat)
          fb0.frame_count hclc
        have hXn : ((countsOf lines).set rng.pick_index
            ((min (max ((fb0.frame_count : ℤ) + rng.boundary_delta) 1)
              (u32Max : ℤ)).toNat))[rng.pick_index + 1]? = some nfbO.frame_count := by
          rw [List.getElem?_set_ne (by omega)]
          exact hcln
        have e2 := sum_set_add _ (rng.pick_index + 1)
          (((nfbO.frame_count : ℤ) + ((fb0.frame_count : ℤ) -
            min (max ((fb0.frame_count : ℤ) + rng.boundary_delta) 1) (u32Max : ℤ))).toNat)
          nfbO.frame_count hXn
        omega
      · intro c hc
        rw [hfinal] at hc
        rcases List.mem_or_eq_of_mem_set hc with hc' | rfl
        · rcases List.mem_or_eq_of_mem_set hc' with hc'' | rfl
          · exact hvalid c hc''
          · exact ⟨ha1, ha2⟩
        · exact ⟨hb1, hb2⟩
      · intro h1
        omega
    · rw [mutate_shape_no_match hb hfbM hnfb hft]
      refine ⟨?_, hvalid1, fun _ => hcounts1⟩
      rw [totalFrames, totalFrames, hcounts1]
  · rw [mutate_shape_no_boundary lines rng hb]
    refine ⟨?_, hvalid1, fun _ => hcounts1⟩
    rw [totalFrames, totalFrames, hcounts1]

lemma exRng_delta_ok : boundaryDeltaOk exMergeInput exRng = true := by
  norm_num [boundaryDeltaOk, afterFieldMutation, exMergeInput, exRng, modifyBulkAt,
    mutateBulkFields, mutate_auto_actions, mutate_action_keys, mutateStrafe, exBulk,
    FrameBulk.with_frame_time, numBulks, nthBulk, Line.toBulk, List.filterMap_cons,
    List.filterMap_nil, min_frame_count_difference, max_frame_count_difference, u32Max]

theorem C5_witness :
    validCounts exMergeInput ∧ exRng.pick_index < numBulks exMergeInput ∧
      boundaryDeltaOk exMergeInput exRng = true ∧
      (totalFrames (mutate_single_frame_bulk exMergeInput exRng).1 = totalFrames exMergeInput ∧
        validCounts (mutate_single_frame_bulk exMergeInput exRng).1 ∧
        (numBulks exMergeInput = 1 →
          countsOf (mutate_single_frame_bulk exMergeInput exRng).1 = countsOf exMergeInput)) :=
  ⟨by decide, by decide, exRng_delta_ok,
    C5_whole_segment_mutation exMergeInput exRng (by decide) (by decide) exRng_delta_ok⟩

/-! ### C6: the tentative changes of the removal pass -/

/-- C6 as stated is false on the code for the leave-ground action: the pass
does not tentatively REMOVE it, it replaces it with the canonical
`Optimal`-speed, unlimited-times form.  With a simulation under which the
player state never changes (so every check passes), a segment whose
leave-ground action has speed `Any` ends up with the canonical action —
neither removed nor the original restored. -/
theorem C6_counterexample :
    (minimizeBulk exSimEnv () .jump () exLgaBulk).1.auto_actions.leave_ground_action =
        some ⟨.optimal, .unlimitedWithinFrameBulk, .jump⟩ ∧
      ¬ (minimizeBulk exSimEnv () .jump () exLgaBulk).1.auto_actions.leave_ground_action
          = none ∧
      ¬ (minimizeBulk exSimEnv () .jump () exLgaBulk).1.auto_actions.leave_ground_action
          = exLgaBulk.auto_actions.leave_ground_action := by
  refine ⟨by decide, by decide, by decide⟩

/-- C6 amended: for each segment, the pass tentatively removes the use key
and the duck-before-ground action, and tentatively REPLACES the leave-ground
action by its canonical form (`Optimal` speed, unlimited times, the
segment's own type); each tentative change is resimulated from the
carried-in state and kept exactly when the resulting player state is
unchanged, else the original value is restored unmodified.  The final
conjunct pins the keep-rule exactly: the resulting bulk is the composition
of the three `keepIfUnchanged` steps, each of which keeps its tentative
change if and only if the resimulated player state matches.  In addition:
the carried-out state is the simulation of the final bulk from the
carried-in state, its player state equals that of the original bulk's
simulation, every non-action field of the bulk is untouched, and each of
the three action fields is either its original or its tentative value. -/
theorem C6_minimize_tentative_changes {S P Pr : Type} [DecidableEq P]
    (env : SimEnv S P Pr) (params : Pr) (pref : LeaveGroundActionType) (state : S)
    (fb : FrameBulk) :
    (minimizeBulk env params pref state fb).2.1 =
        simulateBulk env (env.updateFrameTime params fb.frame_time) state
          (minimizeBulk env params pref state fb).1 ∧
      env.player (minimizeBulk env params pref state fb).2.1 =
        env.player (simulateBulk env (env.updateFrameTime params fb.frame_time) state fb) ∧
      (minimizeBulk env params pref state fb).1.frame_count = fb.frame_count ∧
      (minimizeBulk env params pref state fb).1.frame_time = fb.frame_time ∧
      (minimizeBulk env params pref state fb).1.auto_actions.movement =
        fb.auto_actions.movement ∧
      (minimizeBulk env params pref state fb).1.console_command = fb.console_command ∧
      ((minimizeBulk env params pref state fb).1.action_keys.use_ = fb.action_keys.use_ ∨
        (minimizeBulk env params pref state fb).1.action_keys.use_ = false) ∧
      ((minimizeBulk env params pref state fb).1.auto_actions.duck_before_ground =
          fb.auto_actions.duck_before_ground ∨
        (minimizeBulk env params pref state fb).1.auto_actions.duck_before_ground = none) ∧
      ((minimizeBulk env params pref state fb).1.auto_actions.leave_ground_action =
          fb.auto_actions.leave_ground_action ∨
        (minimizeBulk env params pref state fb).1.auto_actions.leave_ground_action =
          fb.auto_actions.leave_ground_action.map fun action =>
            ⟨.optimal, .unlimitedWithinFrameBulk, action.type_⟩) ∧
      (minimizeBulk env params pref state fb).1 =
        minimizeStepDuck env (env.updateFrameTime params fb.frame_time) state
          (minimizeStepLga env (env.updateFrameTime params fb.frame_time) state
            (minimizeStepUse env (env.updateFrameTime params fb.frame_time) state fb)) := by
  rcases hM : minimizeBulk env params pref state fb with ⟨fb3, s3, pref3⟩
  dsimp only
  rw [minimizeBulk] at hM
  dsimp only at hM
  repeat' split at hM
  all_goals
    injection hM with hfb hrest
  all_goals
    injection hrest with hs hpref
  all_goals
    subst hfb
  all_goals
    subst hs
  all_goals simp_all [minimizeStepUse, minimizeStepLga, minimizeStepDuck, keepIfUnchanged]
